import Mathlib

/-!
A verification development for the pre-market decision engine of the
`qt_ai` repository.  The Python modules `src/portfolio.py`, `src/risk.py`,
`src/momentum.py` and `src/premarket.py` are shallowly embedded below:

* Python `float` prices and percentages are modelled by exact rationals
  (`Rat`); Python `int` share counts by `Int`.
* Python dicts (keys unique, insertion ordered) are modelled by
  association lists together with `alistLookup` / `alistUpdate` /
  `alistErase`, which reproduce dict lookup, assignment and `del`.
* Display-only fields of emitted records (free-text `reason` strings,
  `pnl_pct` and other values rounded to two decimals purely for
  reporting, `rsi`/`alpha_1y` advisory annotations, the sequential
  integer `id`, `holding_days` report counts) are omitted: no decision
  logic of the embedded modules reads them.  Decision-relevant tags
  (`source`, `status`, exit `reason` tags) are kept verbatim.
* The system clock (`date.today()`) and ISO-date parsing
  (`date.fromisoformat`, `ValueError` caught) are environment effects;
  they enter the model as explicit parameters `today : Int` and
  `parseDate : String → Option Int` (days; `none` = unparsable).
-/

/-- One held symbol, the value of `portfolio["positions"][symbol]`.
`core` and `favorite` model `pos.get("core", False)` / `pos.get("favorite",
False)` (an absent key behaves as `false`); `high_since_entry` and
`first_entry` may be absent. -/
structure Position where
  shares : Int
  avg_price : Rat
  cost_basis : Rat
  first_entry : Option String := none
  core : Bool := false
  favorite : Bool := false
  high_since_entry : Option Rat := none
  deriving Repr, DecidableEq

/-- One entry of the append-only `portfolio["transactions"]` log. -/
structure Tx where
  date : String
  symbol : String
  action : String
  shares : Int
  price : Rat
  deriving Repr, DecidableEq

/-- The persisted portfolio snapshot (`portfolio.py`). -/
structure Portfolio where
  cash : Rat
  positions : List (String × Position)
  transactions : List Tx
  deriving Repr, DecidableEq

/-- Dict lookup: first binding of the key (keys are unique in a dict). -/
def alistLookup (k : String) : List (String × α) → Option α
  | [] => none
  | (k', v) :: rest => if k' = k then some v else alistLookup k rest

/-- Dict assignment `d[k] = v`: replace the binding in place, or append. -/
def alistUpdate (k : String) (v : α) : List (String × α) → List (String × α)
  | [] => [(k, v)]
  | (k', v') :: rest =>
      if k' = k then (k, v) :: rest else (k', v') :: alistUpdate k v rest

/-- Dict deletion `del d[k]`: drop the binding of the key. -/
def alistErase (k : String) : List (String × α) → List (String × α)
  | [] => []
  | (k', v') :: rest => if k' = k then rest else (k', v') :: alistErase k rest

/-- `d.get(k, default)`. -/
def alistGetD (l : List (String × α)) (k : String) (dflt : α) : α :=
  (alistLookup k l).getD dflt

/-- `calc_avg_price` (portfolio.py): weighted-average cost. -/
def calc_avg_price (current_avg : Rat) (current_shares : Int)
    (new_price : Rat) (new_shares : Int) : Rat :=
  let total_cost := current_avg * current_shares + new_price * new_shares
  let total_shares := current_shares + new_shares
  if total_shares = 0 then 0 else total_cost / (total_shares : Rat)

/-- An action record as read by `apply_confirmed_actions`: the keys it
accesses, with `Option` for the ones read through `.get`. -/
structure ConfirmAction where
  status : String
  symbol : String
  action : String
  confirm_date : Option String := none
  actual_shares : Option Int := none
  suggested_shares : Option Int := none
  shares : Option Int := none
  actual_price : Option Rat := none
  current_price : Rat
  deriving Repr, DecidableEq

/-- `action.get("actual_shares", action.get("suggested_shares", 0))`. -/
def addShares (a : ConfirmAction) : Int :=
  a.actual_shares.getD (a.suggested_shares.getD 0)

/-- `action.get("actual_shares", action.get("shares", 0))`. -/
def exitShares (a : ConfirmAction) : Int :=
  a.actual_shares.getD (a.shares.getD 0)

/-- `action.get("actual_price", action["current_price"])`. -/
def actionPrice (a : ConfirmAction) : Rat :=
  a.actual_price.getD a.current_price

/-- One iteration of the loop of `apply_confirmed_actions` (portfolio.py
lines 45-100): the effect of a single action on the portfolio.  `today`
stands for `str(date.today())`. -/
def applyOneConfirmed (today : String) (p : Portfolio) (a : ConfirmAction) :
    Portfolio :=
  if a.status ≠ "confirmed" then p
  else
    let tx_date := a.confirm_date.getD today
    if a.action = "ADD" then
      let shares := addShares a
      let price := actionPrice a
      if shares ≤ 0 then p
      else
        let positions' :=
          match alistLookup a.symbol p.positions with
          | some pos =>
              let newAvg := calc_avg_price pos.avg_price pos.shares price shares
              let newShares := pos.shares + shares
              alistUpdate a.symbol
                { pos with avg_price := newAvg, shares := newShares,
                           cost_basis := newAvg * newShares } p.positions
          | none =>
              p.positions ++ [(a.symbol,
                { shares := shares, avg_price := price,
                  cost_basis := price * shares,
                  first_entry := some tx_date, core := false })]
        { cash := p.cash - price * shares,
          positions := positions',
          transactions := p.transactions ++
            [{ date := tx_date, symbol := a.symbol, action := "ADD",
               shares := shares, price := price }] }
    else if a.action = "EXIT" then
      let shares := exitShares a
      let price := actionPrice a
      if shares ≤ 0 then p
      else
        let positions' :=
          match alistLookup a.symbol p.positions with
          | some pos =>
              if shares ≥ pos.shares then alistErase a.symbol p.positions
              else
                alistUpdate a.symbol
                  { pos with shares := pos.shares - shares,
                             cost_basis := pos.avg_price * (pos.shares - shares) }
                  p.positions
          | none => p.positions
        { cash := p.cash + price * shares,
          positions := positions',
          transactions := p.transactions ++
            [{ date := tx_date, symbol := a.symbol, action := "EXIT",
               shares := shares, price := price }] }
    else p

/-- `apply_confirmed_actions` (portfolio.py): fold the per-action effect
over the list of reviewed actions. -/
def apply_confirmed_actions (today : String) (p : Portfolio)
    (confirmed_actions : List ConfirmAction) : Portfolio :=
  confirmed_actions.foldl (applyOneConfirmed today) p

/-!  `risk.py`.  Each check returns the symbols it triggers on, in
position order; the decision-relevant tag of each triggered record is its
constant `reason` (`extreme_stop` / `trailing_stop` / `ma200_stop`), kept
where the records meet in `check_all_exit_conditions`.  Report-only
numeric fields of the triggered records are omitted.  `check_stop_loss`
divides by `avg_price` with no guard, so in Python it raises
`ZeroDivisionError` when a non-core position with a known price has
`avg_price = 0`; theorems about a whole portfolio therefore assume the
documented invariant `avg_price > 0` for such positions.  Likewise the
reporting of `check_ma200_stop` divides by `ma200`, so theorems assume
recorded `ma200` values are nonzero. -/

/-- `check_stop_loss` (risk.py lines 1-26): non-core positions whose
return from cost `(price - avg_price) / avg_price` is at most
`threshold`. -/
def check_stop_loss (positions : List (String × Position))
    (current_prices : List (String × Rat)) (threshold : Rat) : List String :=
  positions.filterMap fun sp =>
    if sp.2.core then none
    else
      match alistLookup sp.1 current_prices with
      | none => none
      | some price =>
          if (price - sp.2.avg_price) / sp.2.avg_price ≤ threshold
          then some sp.1 else none

/-- `check_trailing_stop` (risk.py lines 29-88): trailing stop from
`high_since_entry` combined with a break-even stop from cost, the higher
of the two stop prices winning.  Positions with missing price, missing
high or `avg_price ≤ 0` are skipped. -/
def check_trailing_stop (positions : List (String × Position))
    (current_prices : List (String × Rat))
    (threshold : Rat) (max_loss_threshold : Rat) : List String :=
  positions.filterMap fun sp =>
    if sp.2.core then none
    else
      match alistLookup sp.1 current_prices, sp.2.high_since_entry with
      | some price, some high_price =>
          if sp.2.avg_price ≤ 0 then none
          else
            let trailing_stop := high_price * (1 + threshold)
            let breakeven_stop := sp.2.avg_price * (1 + max_loss_threshold)
            let stop_price := max trailing_stop breakeven_stop
            if price ≤ stop_price then some sp.1 else none
      | _, _ => none

/-- `check_ma200_stop` (risk.py lines 91-119): non-core positions whose
price is below their 200-day moving average; missing data skips. -/
def check_ma200_stop (positions : List (String × Position))
    (current_prices : List (String × Rat))
    (ma200_prices : List (String × Rat)) : List String :=
  positions.filterMap fun sp =>
    if sp.2.core then none
    else
      match alistLookup sp.1 current_prices, alistLookup sp.1 ma200_prices with
      | some price, some ma200 => if price < ma200 then some sp.1 else none
      | _, _ => none

/-- `exits[sym] = {..}` only `if item["symbol"] not in exits`. -/
def addIfAbsent (exits : List (String × String)) (sym reason : String) :
    List (String × String) :=
  if (alistLookup sym exits).isSome then exits else exits ++ [(sym, reason)]

/-- `check_all_exit_conditions` (risk.py lines 122-172): assemble the
symbol → exit-reason dict, trailing stop first, then MA200, then the
extreme stop, earlier rules keeping priority.  Its parameters are
`trailing_threshold`, `hard_threshold` and `max_loss_threshold` — there
is no `fixed_threshold` parameter and no rule tagged `fixed_stop`. -/
def check_all_exit_conditions (positions : List (String × Position))
    (current_prices : List (String × Rat))
    (ma200_prices : List (String × Rat))
    (trailing_threshold : Rat := -(15/100)) (hard_threshold : Rat := -(35/100))
    (max_loss_threshold : Rat := -(5/100)) : List (String × String) :=
  let exits :=
    (check_trailing_stop positions current_prices trailing_threshold
        max_loss_threshold).foldl
      (fun e s => alistUpdate s "trailing_stop" e) []
  let exits :=
    (check_ma200_stop positions current_prices ma200_prices).foldl
      (fun e s => addIfAbsent e s "ma200_stop") exits
  (check_stop_loss positions current_prices hard_threshold).foldl
    (fun e s => addIfAbsent e s "extreme_stop") exits

/-- `check_position_limit` (risk.py lines 175-181): remaining individual
slots, floored at zero. -/
def check_position_limit (portfolio : Portfolio) (max_stocks : Int := 30) :
    Int :=
  let individual_count : Int :=
    ((portfolio.positions.filter fun sp => !sp.2.core).length : Int)
  max (max_stocks - individual_count) 0

/-!  `momentum.py`.  The network fetch and thread pool of
`calculate_momentum_batch` (yfinance history, `ThreadPoolExecutor`) are
outside the embedding; `rank_by_momentum` is modelled from its ranking
step onward, over `scores`, the symbol → momentum result map of the batch
step in dict insertion order.  Python's `sorted(..., reverse=True)` is a
stable descending sort, modelled by a stable insertion sort.  The
advisory `rsi` value is carried through unchanged by the source and
omitted here. -/

/-- Insert keeping the list sorted descending by `key`; an element is
placed before the first element whose key is not greater, so equal keys
keep the earlier element first (stability). -/
def insertDescBy (key : α → Rat) (x : α) : List α → List α
  | [] => [x]
  | y :: ys => if key x < key y then y :: insertDescBy key x ys
               else x :: y :: ys

/-- Stable descending sort by `key`: Python `sorted(l, key=key,
reverse=True)`. -/
def sortDescBy (key : α → Rat) : List α → List α
  | [] => []
  | x :: xs => insertDescBy key x (sortDescBy key xs)

/-- Insert keeping the list sorted ascending by `key`, stably. -/
def insertAscBy (key : α → Rat) (x : α) : List α → List α
  | [] => [x]
  | y :: ys => if key y < key x then y :: insertAscBy key x ys
               else x :: y :: ys

/-- Stable ascending sort by `key`: Python `l.sort(key=key)`. -/
def sortAscBy (key : α → Rat) : List α → List α
  | [] => []
  | x :: xs => insertAscBy key x (sortAscBy key xs)

/-- One row of the list `rank_by_momentum` returns. -/
structure RankResult where
  symbol : String
  momentum : Rat
  rank : Int
  deriving Repr, DecidableEq

/-- `for i, (symbol, data) in enumerate(ranked): ... "rank": i + 1`. -/
def attachRanks (i : Int) : List (String × Rat) → List RankResult
  | [] => []
  | sm :: rest => ⟨sm.1, sm.2, i⟩ :: attachRanks (i + 1) rest

/-- `results[:top_n]` guarded by `if top_n:` — `top_n = 0` is falsy and
truncates nothing; a negative `top_n` slices from the end. -/
def truncateTopN (results : List RankResult) (top_n : Option Int) :
    List RankResult :=
  match top_n with
  | none => results
  | some n =>
      if n = 0 then results
      else if 0 < n then results.take n.toNat
      else results.take ((results.length : Int) + n).toNat

/-- `rank_by_momentum` (momentum.py lines 119-160) from the ranking step
onward: sort `scores` by momentum descending (stable), attach 1-indexed
ranks, keep the first `top_n` when requested. -/
def rank_by_momentum (scores : List (String × Rat))
    (top_n : Option Int := none) : List RankResult :=
  let ranked := sortDescBy (fun sm => sm.2) scores
  truncateTopN (attachRanks 1 ranked) top_n

/-!  `premarket.py`.  `generate_actions` (line 43) invokes
`check_all_exit_conditions` with the keyword arguments `fixed_threshold`
and `hard_threshold`; `fixed_threshold` is not a parameter of that
function, so in Python the call raises `TypeError` before any action is
produced.  The model makes the call-site keyword binding explicit
(`bindKwargs`), and `generate_actions` returns `Except` accordingly.
The action-emission logic of lines 48-301 is embedded separately
(`generateActionsFixed` and its stages) with the exit-signal call bound
per the actual signature of `check_all_exit_conditions`; the real
`generate_actions` never reaches it.  The `alpha_1y_map` argument only
feeds report-text annotations and advisory fields, so the emission
stages do not consume it. -/

/-- One element of the `momentum_ranks` list, as produced by
`rank_by_momentum`: `symbol`, `momentum` and `rank` are always present,
`rsi` may be `None`. -/
structure MEntry where
  symbol : String
  momentum : Rat
  rank : Int
  rsi : Option Rat := none
  deriving Repr, DecidableEq

/-- `momentum_map = {m["symbol"]: m for m in momentum_ranks}` followed by
`momentum_map.get(sym)`: on duplicate symbols the later entry overwrites
the earlier, so lookup scans the reversed list. -/
def momentumMapGet (momentum_ranks : List MEntry) (sym : String) :
    Option MEntry :=
  momentum_ranks.reverse.find? fun m => m.symbol == sym

/-- An emitted action (decision-relevant fields; see the module note for
the omitted report-only fields).  The constructor is the record's
`"action"` tag. -/
inductive PAction where
  | hold (symbol : String) (shares : Int) (current_price : Option Rat)
      (source status : String)
  | exit (symbol : String) (shares : Int) (current_price : Option Rat)
      (source status : String)
  | add (symbol : String) (suggested_shares : Int) (current_price : Rat)
      (source status : String)
  | rotate (sell_symbol : String) (sell_shares : Int) (sell_price : Rat)
      (buy_symbol : String) (buy_shares : Int) (buy_price : Rat)
      (source status : String)
  deriving Repr, DecidableEq

/-- The loop body of premarket.py lines 49-129 for one held position.
A core position short-circuits to HOLD with source `core_hold`; a symbol
in the exit-signal dict becomes EXIT carrying the signal's reason tag as
`source`; everything else HOLDs with source `momentum`. -/
def classifyOne (current_prices : List (String × Rat))
    (exit_signals : List (String × String)) (sp : String × Position) :
    PAction :=
  let price := alistLookup sp.1 current_prices
  if sp.2.core then .hold sp.1 sp.2.shares price "core_hold" "auto"
  else
    match alistLookup sp.1 exit_signals with
    | some reason => .exit sp.1 sp.2.shares price reason "pending"
    | none => .hold sp.1 sp.2.shares price "momentum" "auto"

/-- premarket.py lines 49-129: one HOLD or EXIT per held position, in
position order. -/
def classifyPositions (positions : List (String × Position))
    (current_prices : List (String × Rat))
    (exit_signals : List (String × String)) : List PAction :=
  positions.map (classifyOne current_prices exit_signals)

/-- `sum(current_prices.get(a["symbol"], 0) * a["shares"] for a in
actions if a["action"] == "EXIT")` (line 134). -/
def exitProceeds (current_prices : List (String × Rat))
    (acts : List PAction) : Rat :=
  (acts.map fun a =>
    match a with
    | .exit sym shares _ _ _ => alistGetD current_prices sym 0 * (shares : Rat)
    | _ => 0).sum

/-- `sum(1 for a in actions if a["action"] == "EXIT")` (line 138). -/
def exitCount (acts : List PAction) : Int :=
  ((acts.filter fun a =>
    match a with
    | .exit _ _ _ _ _ => true
    | _ => false).length : Int)

/-- The symbol of an EXIT action, `none` for the other kinds. -/
def exitSymbolOne : PAction → Option String
  | .exit sym _ _ _ _ => some sym
  | _ => none

/-- `{a["symbol"] for a in actions if a["action"] == "EXIT"}` as a list;
only membership is ever asked of it. -/
def exitSymbolsOf (acts : List PAction) : List String :=
  acts.filterMap exitSymbolOne

/-- `projected_cash = current_cash + exit_proceeds * CASH_SAFETY_FACTOR`
(lines 133-141), with `CASH_SAFETY_FACTOR = 0.85`. -/
def projectedCash (portfolio : Portfolio)
    (current_prices : List (String × Rat)) (acts : List PAction) : Rat :=
  portfolio.cash + exitProceeds current_prices acts * (85/100)

/-- The candidate filter of lines 154-159: momentum above zero, not
already held, not in the EXIT set. -/
def buyCandidates (momentum_ranks : List MEntry)
    (positions : List (String × Position)) (exit_symbols : List String) :
    List MEntry :=
  momentum_ranks.filter fun m =>
    decide (0 < m.momentum) && (alistLookup m.symbol positions).isNone
      && !(exit_symbols.contains m.symbol)

/-- The loop body of premarket.py lines 172-210 for one funded
candidate: size `position_size` rounded down to whole shares at the
candidate's price (zero when the price is not positive or no cash is
projected), emitted as a pending ADD even when the allocation is zero. -/
def mkAddAction (current_prices : List (String × Rat))
    (position_size : Rat) (m : MEntry) : PAction :=
  let price := alistGetD current_prices m.symbol 0
  let suggested_shares : Int :=
    if 0 < price ∧ 0 < position_size then ⌊position_size / price⌋ else 0
  .add m.symbol suggested_shares price "momentum" "pending"

/-- premarket.py lines 131-210: the ADD block.  Slots are the free
position-limit slots plus the slots EXITs release; at most five
candidates are funded, each sized to `projected_cash / num_to_add`. -/
def addStage (portfolio : Portfolio) (current_prices : List (String × Rat))
    (momentum_ranks : List MEntry) (acts : List PAction) : List PAction :=
  let projected_cash := projectedCash portfolio current_prices acts
  let base_slots := check_position_limit portfolio
  let available_slots := base_slots + exitCount acts
  if 0 < available_slots ∧ momentum_ranks ≠ [] then
    let exit_symbols := exitSymbolsOf acts
    let cands := buyCandidates momentum_ranks portfolio.positions exit_symbols
    let num_to_add : Int := min 5 (min available_slots (cands.length : Int))
    let position_size :=
      if 0 < num_to_add then projected_cash / (num_to_add : Rat) else 0
    (cands.take num_to_add.toNat).map (mkAddAction current_prices position_size)
  else []

/-- `get_holding_days` (lines 217-226): days since `first_entry`; an
absent, empty or unparsable date counts as 999. -/
def getHoldingDays (today : Int) (parseDate : String → Option Int)
    (pos : Position) : Int :=
  match pos.first_entry with
  | some s =>
      if s = "" then 999
      else
        match parseDate s with
        | some d => today - d
        | none => 999
  | none => 999

/-- One tuple of `rotatable_positions` (line 230). -/
structure RotEntry where
  sym : String
  pos : Position
  momentum : Option Rat
  holding_days : Int
  deriving Repr, DecidableEq

/-- premarket.py lines 229-237: holdings eligible for rotation —
non-core, non-favorite, not already exiting, with a resolvable momentum,
held at least `ROTATE_HOLDING_DAYS_MIN = 30` days. -/
def rotatablePositions (today : Int) (parseDate : String → Option Int)
    (positions : List (String × Position)) (momentum_ranks : List MEntry)
    (exit_symbols : List String) : List RotEntry :=
  (positions.filter fun sp =>
      !sp.2.core && !sp.2.favorite && !(exit_symbols.contains sp.1)
        && ((momentumMapGet momentum_ranks sp.1).map MEntry.momentum).isSome
        && decide (30 ≤ getHoldingDays today parseDate sp.2)).map
    fun sp =>
      ⟨sp.1, sp.2, (momentumMapGet momentum_ranks sp.1).map MEntry.momentum,
        getHoldingDays today parseDate sp.2⟩

/-- premarket.py lines 243-248: the strong-candidate filter, textually
the candidate filter of lines 154-159 again. -/
def strongCandidates (momentum_ranks : List MEntry)
    (positions : List (String × Position)) (exit_symbols : List String) :
    List MEntry :=
  momentum_ranks.filter fun m =>
    decide (0 < m.momentum) && (alistLookup m.symbol positions).isNone
      && !(exit_symbols.contains m.symbol)

/-- Lines 269-275: shares the sale proceeds buy of the candidate,
`floor(pos_value * 0.85 / candidate_price)`, zero when the candidate has
no positive price. -/
def rotateBuySharesFor (current_prices : List (String × Rat))
    (pos_price : Rat) (pos : Position) (c : MEntry) : Int :=
  let candidate_price := alistGetD current_prices c.symbol 0
  if 0 < candidate_price
  then ⌊pos_price * (pos.shares : Rat) * (85/100) / candidate_price⌋
  else 0

/-- premarket.py lines 251-299: walk the weak holdings in order, pairing
each with the first strong candidate not yet used whose momentum beats
the holding's by more than `ROTATE_MOMENTUM_DIFF = 10` and whose buy
size is positive; a matched candidate joins the used set. -/
def rotateLoop (current_prices : List (String × Rat))
    (strong : List MEntry) :
    List RotEntry → List String → List PAction
  | [], _ => []
  | e :: rest, used =>
      let pos_price := alistGetD current_prices e.sym 0
      if pos_price ≤ 0 then rotateLoop current_prices strong rest used
      else
        match strong.find? (fun c =>
            !(used.contains c.symbol)
              && decide (10 < c.momentum - e.momentum.getD 0)
              && decide (0 < rotateBuySharesFor current_prices pos_price e.pos c))
          with
        | none => rotateLoop current_prices strong rest used
        | some c =>
            .rotate e.sym e.pos.shares pos_price c.symbol
                (rotateBuySharesFor current_prices pos_price e.pos c)
                (alistGetD current_prices c.symbol 0) "rotate" "pending"
              :: rotateLoop current_prices strong rest (c.symbol :: used)

/-- The HOLD/EXIT classification of the holdings with the exit signals
as the loop of premarket.py line 49 receives them: thresholds −0.15 and
−0.35 of line 45 bound per the actual signature of
`check_all_exit_conditions`, `max_loss_threshold` defaulted. -/
def classifiedOf (portfolio : Portfolio)
    (current_prices : List (String × Rat))
    (ma200_prices : List (String × Rat)) : List PAction :=
  classifyPositions portfolio.positions current_prices
    (check_all_exit_conditions portfolio.positions current_prices
      ma200_prices (-(15/100)) (-(35/100)) (-(5/100)))

/-- premarket.py lines 48-301: the action-emission logic of
`generate_actions`, with the exit-signal call of line 43 bound per the
actual signature of `check_all_exit_conditions` (threshold −0.15 as
`trailing_threshold`, −0.35 as `hard_threshold`, `max_loss_threshold`
defaulted).  `generate_actions` itself never reaches this code: its
line-43 call raises `TypeError` (see `generate_actions` below). -/
def generateActionsFixed (today : Int) (parseDate : String → Option Int)
    (portfolio : Portfolio) (current_prices : List (String × Rat))
    (ma200_prices : List (String × Rat)) (momentum_ranks : List MEntry) :
    List PAction :=
  let positions := portfolio.positions
  let classified := classifiedOf portfolio current_prices ma200_prices
  let adds := addStage portfolio current_prices momentum_ranks classified
  let acts := classified ++ adds
  let exit_symbols := exitSymbolsOf acts
  let rotatable :=
    sortAscBy (fun e => e.momentum.getD 999)
      (rotatablePositions today parseDate positions momentum_ranks exit_symbols)
  let strong := strongCandidates momentum_ranks positions exit_symbols
  acts ++ rotateLoop current_prices strong rotatable []

/-- A raised Python exception. -/
inductive PyErr where
  | typeError (message : String)
  deriving Repr, DecidableEq

/-- The parameter names of `check_all_exit_conditions` (risk.py lines
122-124). -/
def check_all_exit_conditions_params : List String :=
  ["positions", "current_prices", "ma200_prices",
   "trailing_threshold", "hard_threshold", "max_loss_threshold"]

/-- Python keyword-argument binding: a keyword that names no parameter
raises `TypeError: got an unexpected keyword argument`. -/
def bindKwargs (params : List String) (kwargs : List String) :
    Except PyErr Unit :=
  match kwargs.find? (fun k => !(params.contains k)) with
  | some k =>
      .error (.typeError
        ("check_all_exit_conditions() got an unexpected keyword argument " ++ k))
  | none => .ok ()

/-- `generate_actions` (premarket.py lines 12-301).  Lines 25-30 default
the optional arguments; line 43 calls `check_all_exit_conditions` with
the keywords `fixed_threshold` and `hard_threshold`, whose binding is
modelled explicitly — it fails, so the function always returns the
`TypeError` and the emission logic is unreachable. -/
def generate_actions (today : Int) (parseDate : String → Option Int)
    (portfolio : Portfolio) (current_prices : List (String × Rat))
    (ma200_prices : Option (List (String × Rat)) := none)
    (momentum_ranks : Option (List MEntry) := none)
    (alpha_1y_map : Option (List (String × Rat)) := none) :
    Except PyErr (List PAction) :=
  let ma200 := ma200_prices.getD []
  let ranks := momentum_ranks.getD []
  let _ := alpha_1y_map
  match bindKwargs check_all_exit_conditions_params
      ["fixed_threshold", "hard_threshold"] with
  | .error e => .error e
  | .ok _ =>
      .ok (generateActionsFixed today parseDate portfolio current_prices
        ma200 ranks)

/-- The cost `suggested_shares × current_price` of an ADD action, zero
for the other kinds. -/
def addSpendOne : PAction → Rat
  | .add _ sug price _ _ => (sug : Rat) * price
  | _ => 0

/-- The aggregate cost of the ADD actions of a run:
`sum of suggested_shares × current_price`. -/
def addSpend (acts : List PAction) : Rat :=
  (acts.map addSpendOne).sum

/-- The `sell_symbol` of a ROTATE action, `none` for the other kinds. -/
def rotateSellOne : PAction → Option String
  | .rotate sell _ _ _ _ _ _ _ => some sell
  | _ => none

/-- The `buy_symbol` of a ROTATE action, `none` for the other kinds. -/
def rotateBuyOne : PAction → Option String
  | .rotate _ _ _ buy _ _ _ _ => some buy
  | _ => none

/-- The `sell_symbol`s of the ROTATE actions of a run, in order. -/
def rotateSellsOf (acts : List PAction) : List String :=
  acts.filterMap rotateSellOne

/-- The `buy_symbol`s of the ROTATE actions of a run, in order. -/
def rotateBuysOf (acts : List PAction) : List String :=
  acts.filterMap rotateBuyOne

/-!  Concrete fixtures used by counterexamples and witnesses. -/

/-- The non-core position of the spec's end-to-end scenario 2: 10 shares
at cost 100, high-water mark 100. -/
def posXXX : Position :=
  { shares := 10, avg_price := 100, cost_basis := 1000,
    first_entry := some "2025-01-01", core := false,
    high_since_entry := some 100 }

/-- A portfolio holding only `posXXX` with 1000 in cash. -/
def portXXX : Portfolio :=
  { cash := 1000, positions := [("XXX", posXXX)], transactions := [] }

/-- A portfolio with no cash and no positions. -/
def portEmpty : Portfolio := { cash := 0, positions := [], transactions := [] }

/-- A confirmed ADD of 1 share of ZZZ at 10: its cost exceeds the zero
cash of `portEmpty`. -/
def addZZZ : ConfirmAction :=
  { status := "confirmed", symbol := "ZZZ", action := "ADD",
    confirm_date := some "2025-01-02", suggested_shares := some 1,
    current_price := 10 }

/-- A `skipped` EXIT proposal. -/
def skippedExitXXX : ConfirmAction :=
  { status := "skipped", symbol := "XXX", action := "EXIT",
    shares := some 10, current_price := 84 }

/-- A confirmed EXIT of 3 shares of a symbol no portfolio below holds. -/
def exitGGG : ConfirmAction :=
  { status := "confirmed", symbol := "GGG", action := "EXIT",
    shares := some 3, current_price := 7 }

/-- A confirmed ADD proposal of `s` shares of `sym` at price `q`, as
`generate_actions` emits it (shares under `suggested_shares`) once a
reviewer confirms it without overrides. -/
def mkConfirmedAdd (sym : String) (s : Int) (q : Rat) : ConfirmAction :=
  { status := "confirmed", symbol := sym, action := "ADD",
    suggested_shares := some s, current_price := q }

/-- A confirmed EXIT proposal of `s` shares of `sym` at price `q`
(shares under `shares`), confirmed without overrides. -/
def mkConfirmedExit (sym : String) (s : Int) (q : Rat) : ConfirmAction :=
  { status := "confirmed", symbol := sym, action := "EXIT",
    shares := some s, current_price := q }

/-- The momentum ranking of the spec's end-to-end scenario 1. -/
def ranksAB : List MEntry :=
  [{ symbol := "AAA", momentum := 20, rank := 1 },
   { symbol := "BBB", momentum := 15, rank := 2 }]

/-- A portfolio of 10000 cash and no positions (scenario 1). -/
def portCash : Portfolio :=
  { cash := 10000, positions := [], transactions := [] }

/-- The prices of scenario 1. -/
def pricesAB : List (String × Rat) := [("AAA", 100), ("BBB", 50)]

/-- A weak-momentum non-core holding, eligible for rotation. -/
def posCCC : Position :=
  { shares := 10, avg_price := 50, cost_basis := 500,
    first_entry := some "2025-01-01", core := false,
    high_since_entry := some 55 }

/-- A cashless portfolio holding only `posCCC`. -/
def portRot : Portfolio :=
  { cash := 0, positions := [("CCC", posCCC)], transactions := [] }

/-- Prices for the rotation fixture. -/
def pricesRot : List (String × Rat) := [("CCC", 50), ("DDD", 20)]

/-- Ranks for the rotation fixture: DDD's momentum beats CCC's by more
than the 10-point rotation threshold. -/
def ranksRot : List MEntry :=
  [{ symbol := "DDD", momentum := 25, rank := 1 },
   { symbol := "CCC", momentum := 1, rank := 2 }]

/-- A core position deep under water: −75 % from cost at price 100. -/
def posVOO : Position :=
  { shares := 5, avg_price := 400, cost_basis := 2000,
    first_entry := some "2020-01-01", core := true,
    high_since_entry := some 500 }

/-- A portfolio holding only the core `posVOO`. -/
def portCore : Portfolio :=
  { cash := 100, positions := [("VOO", posVOO)], transactions := [] }

/-- A momentum score map with a tie: A and C both score 5. -/
def scoresW : List (String × Rat) := [("A", 5), ("B", 7), ("C", 5)]

/-- The portfolio `apply_confirmed_actions` produces from `portEmpty`
and `[addZZZ]`: the overdraw is applied, cash ends negative. -/
def portAfterOverdraw : Portfolio :=
  { cash := -10,
    positions := [("ZZZ",
      { shares := 1, avg_price := 10, cost_basis := 10,
        first_entry := some "2025-01-02", core := false })],
    transactions := [{ date := "2025-01-02", symbol := "ZZZ",
                       action := "ADD", shares := 1, price := 10 }] }

/-!  Theorems.  Helper lemmas come first; each claim's theorem carries a
doc comment naming the claim. -/

theorem alistLookup_append_self {α : Type} (k : String) (v : α)
    (l : List (String × α)) (h : alistLookup k l = none) :
    alistLookup k (l ++ [(k, v)]) = some v := by
  induction l with
  | nil => simp [alistLookup]
  | cons hd tl ih =>
      rw [alistLookup] at h
      by_cases hk : hd.1 = k
      · simp [hk] at h
      · rw [List.cons_append, alistLookup.eq_def]
        simp only [hk, if_false]
        exact ih (by simpa [hk] using h)

theorem alistErase_append_self {α : Type} (k : String) (v : α)
    (l : List (String × α)) (h : alistLookup k l = none) :
    alistErase k (l ++ [(k, v)]) = l := by
  induction l with
  | nil => simp [alistErase]
  | cons hd tl ih =>
      rw [alistLookup] at h
      by_cases hk : hd.1 = k
      · simp [hk] at h
      · rw [List.cons_append, alistErase.eq_def]
        simp only [hk, if_false]
        rw [ih (by simpa [hk] using h)]

/-- C9: an action whose status is not `confirmed` leaves cash, the
positions map and the transactions log exactly as they were: the loop
body of `apply_confirmed_actions` is the identity on it. -/
theorem skipped_actions_leave_portfolio_unchanged (today : String)
    (p : Portfolio) (a : ConfirmAction) (h : a.status ≠ "confirmed") :
    applyOneConfirmed today p a = p := by
  unfold applyOneConfirmed
  rw [if_pos h]

/-- Witness for C9: a concrete `skipped` action leaves `portXXX`
unchanged. -/
theorem skipped_actions_leave_portfolio_unchanged_witness :
    skippedExitXXX.status ≠ "confirmed"
    ∧ applyOneConfirmed "2025-06-02" portXXX skippedExitXXX = portXXX :=
  ⟨by decide,
   skipped_actions_leave_portfolio_unchanged "2025-06-02" portXXX
     skippedExitXXX (by decide)⟩

/-- C10: a confirmed EXIT naming a symbol absent from the positions map
still increases cash by `price × shares` and still appends an EXIT
transaction, while the positions map stays as it was. -/
theorem confirmed_exit_unknown_symbol_still_credits_cash (today : String)
    (p : Portfolio) (a : ConfirmAction) (hst : a.status = "confirmed")
    (hact : a.action = "EXIT")
    (habs : alistLookup a.symbol p.positions = none)
    (hsh : 0 < exitShares a) :
    applyOneConfirmed today p a =
      { cash := p.cash + actionPrice a * exitShares a,
        positions := p.positions,
        transactions := p.transactions ++
          [{ date := a.confirm_date.getD today, symbol := a.symbol,
             action := "EXIT", shares := exitShares a,
             price := actionPrice a }] } := by
  unfold applyOneConfirmed
  rw [if_neg (by simp [hst])]
  rw [if_neg (by simp [hact])]
  rw [if_pos hact]
  rw [if_neg (not_le.mpr hsh)]
  rw [habs]

/-- Witness for C10: a confirmed EXIT of 3 shares of an unheld symbol at
price 7 credits 21 of cash to `portEmpty` and logs the transaction. -/
theorem confirmed_exit_unknown_symbol_still_credits_cash_witness :
    exitGGG.status = "confirmed"
    ∧ exitGGG.action = "EXIT"
    ∧ alistLookup exitGGG.symbol portEmpty.positions = none
    ∧ 0 < exitShares exitGGG
    ∧ applyOneConfirmed "2025-06-02" portEmpty exitGGG =
      { cash := portEmpty.cash + actionPrice exitGGG * exitShares exitGGG,
        positions := portEmpty.positions,
        transactions := portEmpty.transactions ++
          [{ date := exitGGG.confirm_date.getD "2025-06-02",
             symbol := exitGGG.symbol, action := "EXIT",
             shares := exitShares exitGGG, price := actionPrice exitGGG }] } :=
  ⟨by decide, by decide, by decide, by decide,
   confirmed_exit_unknown_symbol_still_credits_cash "2025-06-02" portEmpty
     exitGGG (by decide) (by decide) (by decide) (by decide)⟩

theorem addShares_mkConfirmedAdd (sym : String) (s : Int) (q : Rat) :
    addShares (mkConfirmedAdd sym s q) = s := rfl

theorem actionPrice_mkConfirmedAdd (sym : String) (s : Int) (q : Rat) :
    actionPrice (mkConfirmedAdd sym s q) = q := rfl

theorem exitShares_mkConfirmedExit (sym : String) (s : Int) (q : Rat) :
    exitShares (mkConfirmedExit sym s q) = s := rfl

theorem actionPrice_mkConfirmedExit (sym : String) (s : Int) (q : Rat) :
    actionPrice (mkConfirmedExit sym s q) = q := rfl

theorem confirm_date_mkConfirmedAdd (sym : String) (s : Int) (q : Rat) :
    (mkConfirmedAdd sym s q).confirm_date = none := rfl

theorem symbol_mkConfirmedExit (sym : String) (s : Int) (q : Rat) :
    (mkConfirmedExit sym s q).symbol = sym := rfl

theorem symbol_mkConfirmedAdd (sym : String) (s : Int) (q : Rat) :
    (mkConfirmedAdd sym s q).symbol = sym := rfl

/-- A confirmed ADD of a symbol not yet held creates the position at the
end of the map, debits cash by `price × shares` and logs the
transaction (portfolio.py lines 53-80, fresh-symbol branch). -/
theorem applyOne_confirmed_add_new (today : String) (p : Portfolio)
    (a : ConfirmAction) (hst : a.status = "confirmed")
    (hact : a.action = "ADD")
    (habs : alistLookup a.symbol p.positions = none)
    (hsh : 0 < addShares a) :
    applyOneConfirmed today p a =
      { cash := p.cash - actionPrice a * addShares a,
        positions := p.positions ++ [(a.symbol,
          { shares := addShares a, avg_price := actionPrice a,
            cost_basis := actionPrice a * addShares a,
            first_entry := some (a.confirm_date.getD today),
            core := false })],
        transactions := p.transactions ++
          [{ date := a.confirm_date.getD today, symbol := a.symbol,
             action := "ADD", shares := addShares a,
             price := actionPrice a }] } := by
  unfold applyOneConfirmed
  rw [if_neg (by simp [hst])]
  rw [if_pos hact]
  rw [if_neg (not_le.mpr hsh)]
  rw [habs]

/-- A confirmed EXIT of at least the held share count deletes the
position, credits cash by `price × shares` and logs the transaction
(portfolio.py lines 82-100, full-exit branch). -/
theorem applyOne_confirmed_exit_all (today : String) (p : Portfolio)
    (a : ConfirmAction) (pos : Position) (hst : a.status = "confirmed")
    (hact : a.action = "EXIT")
    (hlk : alistLookup a.symbol p.positions = some pos)
    (hsh : 0 < exitShares a) (hge : exitShares a ≥ pos.shares) :
    applyOneConfirmed today p a =
      { cash := p.cash + actionPrice a * exitShares a,
        positions := alistErase a.symbol p.positions,
        transactions := p.transactions ++
          [{ date := a.confirm_date.getD today, symbol := a.symbol,
             action := "EXIT", shares := exitShares a,
             price := actionPrice a }] } := by
  unfold applyOneConfirmed
  rw [if_neg (by simp [hst])]
  rw [if_neg (by simp [hact])]
  rw [if_pos hact]
  rw [if_neg (not_le.mpr hsh)]
  simp only [hlk]
  rw [if_pos hge]

/-- Counterexample to C3: `portEmpty` has zero cash, yet the confirmed
ADD of 1 share at 10 is applied in full — the position appears, the
transaction is logged and cash ends at −10, negative after a confirmed
transaction that overdraws; nothing is rejected and no error reaches the
caller (`apply_confirmed_actions` has no failure path at all). -/
theorem overdrawing_add_not_rejected_cex :
    apply_confirmed_actions "2025-06-02" portEmpty [addZZZ] =
      portAfterOverdraw
    ∧ (apply_confirmed_actions "2025-06-02" portEmpty [addZZZ]).cash < 0 := by
  constructor
  · with_unfolding_all decide
  · with_unfolding_all decide

/-- C3 as amended: `apply_confirmed_actions` performs no
cash-sufficiency check — a confirmed ADD with a positive share count is
always applied in full, whatever the available cash: cash decreases by
exactly `price × shares` (and may become and stay negative) and the ADD
transaction is appended; the share count is never clipped and no error
is raised. -/
theorem confirmed_add_applied_without_cash_check (today : String)
    (p : Portfolio) (a : ConfirmAction) (hst : a.status = "confirmed")
    (hact : a.action = "ADD") (hsh : 0 < addShares a) :
    (applyOneConfirmed today p a).cash =
        p.cash - actionPrice a * addShares a
    ∧ (applyOneConfirmed today p a).transactions =
        p.transactions ++
          [{ date := a.confirm_date.getD today, symbol := a.symbol,
             action := "ADD", shares := addShares a,
             price := actionPrice a }] := by
  unfold applyOneConfirmed
  rw [if_neg (by simp [hst])]
  rw [if_pos hact]
  rw [if_neg (not_le.mpr hsh)]
  constructor
  · rfl
  · rfl

/-- Witness for the amended C3: the overdrawing `addZZZ` against the
cashless `portEmpty`. -/
theorem confirmed_add_applied_without_cash_check_witness :
    addZZZ.status = "confirmed" ∧ addZZZ.action = "ADD"
    ∧ 0 < addShares addZZZ
    ∧ ((applyOneConfirmed "2025-06-02" portEmpty addZZZ).cash =
          portEmpty.cash - actionPrice addZZZ * addShares addZZZ
        ∧ (applyOneConfirmed "2025-06-02" portEmpty addZZZ).transactions =
            portEmpty.transactions ++
              [{ date := addZZZ.confirm_date.getD "2025-06-02",
                 symbol := addZZZ.symbol, action := "ADD",
                 shares := addShares addZZZ,
                 price := actionPrice addZZZ }]) :=
  ⟨by decide, by decide, by decide,
   confirmed_add_applied_without_cash_check "2025-06-02" portEmpty addZZZ
     (by decide) (by decide) (by decide)⟩

/-- C4: on a portfolio not holding `sym`, a confirmed ADD of `s` shares
at price `q` followed by a confirmed EXIT of the same `s` shares at the
same price returns cash to its original value and leaves the positions
map exactly as before — in particular no position for `sym` remains. -/
theorem add_then_exit_roundtrip (today : String) (p : Portfolio)
    (sym : String) (s : Int) (q : Rat)
    (habs : alistLookup sym p.positions = none) (hs : 0 < s) (hq : 0 < q) :
    (apply_confirmed_actions today p
        [mkConfirmedAdd sym s q, mkConfirmedExit sym s q]).cash = p.cash
    ∧ (apply_confirmed_actions today p
        [mkConfirmedAdd sym s q, mkConfirmedExit sym s q]).positions
        = p.positions := by
  have hstep : apply_confirmed_actions today p
      [mkConfirmedAdd sym s q, mkConfirmedExit sym s q]
      = applyOneConfirmed today
          (applyOneConfirmed today p (mkConfirmedAdd sym s q))
          (mkConfirmedExit sym s q) := rfl
  rw [hstep]
  have hadd := applyOne_confirmed_add_new today p (mkConfirmedAdd sym s q)
    rfl rfl habs (by rw [addShares_mkConfirmedAdd]; exact hs)
  simp only [addShares_mkConfirmedAdd, actionPrice_mkConfirmedAdd,
    confirm_date_mkConfirmedAdd, symbol_mkConfirmedAdd,
    Option.getD_none] at hadd
  rw [hadd]
  have hexit := applyOne_confirmed_exit_all today
    { cash := p.cash - q * s,
      positions := p.positions ++ [(sym,
        { shares := s, avg_price := q, cost_basis := q * s,
          first_entry := some today, core := false })],
      transactions := p.transactions ++
        [{ date := today, symbol := sym, action := "ADD",
           shares := s, price := q }] }
    (mkConfirmedExit sym s q)
    { shares := s, avg_price := q, cost_basis := q * s,
      first_entry := some today, core := false }
    rfl rfl
    (alistLookup_append_self sym _ p.positions habs)
    (by rw [exitShares_mkConfirmedExit]; exact hs)
    (by rw [exitShares_mkConfirmedExit])
  simp only [exitShares_mkConfirmedExit, actionPrice_mkConfirmedExit,
    symbol_mkConfirmedExit] at hexit
  rw [hexit]
  constructor
  · show p.cash - q * s + q * s = p.cash
    ring
  · show alistErase sym (p.positions ++ [(sym,
      { shares := s, avg_price := q, cost_basis := q * s,
        first_entry := some today, core := false })]) = p.positions
    exact alistErase_append_self sym _ p.positions habs

/-- Witness for C4: ADD then EXIT of 4 shares of YYY at 25 on `portXXX`
restores its cash of 1000 and its single-position map. -/
theorem add_then_exit_roundtrip_witness :
    alistLookup "YYY" portXXX.positions = none ∧ (0 : Int) < 4
    ∧ (0 : Rat) < 25
    ∧ ((apply_confirmed_actions "2025-06-02" portXXX
          [mkConfirmedAdd "YYY" 4 25, mkConfirmedExit "YYY" 4 25]).cash
          = portXXX.cash
      ∧ (apply_confirmed_actions "2025-06-02" portXXX
          [mkConfirmedAdd "YYY" 4 25, mkConfirmedExit "YYY" 4 25]).positions
          = portXXX.positions) :=
  ⟨by decide, by decide, by decide,
   add_then_exit_roundtrip "2025-06-02" portXXX "YYY" 4 25 (by decide)
     (by decide) (by decide)⟩

/-- C2: for every input — any portfolio, any price map, with or without
MA200 data, momentum ranks or alpha map, including an empty portfolio —
`generate_actions` raises `TypeError`, because its line-43 call passes
the keyword `fixed_threshold`, which is not a parameter of
`check_all_exit_conditions` (its threshold parameters are
`trailing_threshold`, `hard_threshold`, `max_loss_threshold`); the error
is returned before any action is produced. -/
theorem generate_actions_always_type_error (today : Int)
    (parseDate : String → Option Int) (portfolio : Portfolio)
    (current_prices : List (String × Rat))
    (ma200_prices : Option (List (String × Rat)))
    (momentum_ranks : Option (List MEntry))
    (alpha_1y_map : Option (List (String × Rat))) :
    generate_actions today parseDate portfolio current_prices ma200_prices
        momentum_ranks alpha_1y_map =
      .error (.typeError
        "check_all_exit_conditions() got an unexpected keyword argument fixed_threshold") :=
  rfl

/-- C1 (code bug): at the spec's scenario-2 input — a non-core position
of 10 shares at cost 100 with the price at 84, a −16 % return from cost,
within the −15 % threshold — `generate_actions` raises `TypeError`
instead of emitting an EXIT with source `fixed_stop`; and the
first-priority rule of `check_all_exit_conditions` is the
trailing/break-even stop computed from `high_since_entry` and cost,
which reports this symbol as `trailing_stop` — no rule of risk.py
reports `fixed_stop`. -/
theorem fixed_stop_rule_unreachable :
    generate_actions 20000 (fun _ => none) portXXX [("XXX", 84)]
        (some []) (some []) none =
      .error (.typeError
        "check_all_exit_conditions() got an unexpected keyword argument fixed_threshold")
    ∧ check_all_exit_conditions portXXX.positions [("XXX", 84)] []
        (-(15/100)) (-(35/100)) (-(5/100)) = [("XXX", "trailing_stop")] := by
  constructor
  · rfl
  · with_unfolding_all decide

/-- C5 (code bug): at the spec's scenario-1 input — 10000 cash, no
positions, two ranked candidates — `generate_actions` raises `TypeError`
before the sizing stage can emit any ADD; the sizing logic itself
(`generateActionsFixed`), were it reachable, would spend 50 × 100 +
100 × 50 = 10000 ≤ projected_cash here. -/
theorem add_sizing_unreachable_type_error :
    generate_actions 20000 (fun _ => none) portCash pricesAB
        (some []) (some ranksAB) none =
      .error (.typeError
        "check_all_exit_conditions() got an unexpected keyword argument fixed_threshold")
    ∧ addSpend (generateActionsFixed 20000 (fun _ => none) portCash
          pricesAB [] ranksAB)
        ≤ projectedCash portCash pricesAB
            (classifyPositions portCash.positions pricesAB
              (check_all_exit_conditions portCash.positions pricesAB []
                (-(15/100)) (-(35/100)) (-(5/100)))) := by
  constructor
  · rfl
  · with_unfolding_all decide

/-- C6 (code bug): at an input with one weak eligible holding and one
strong candidate — a pairing the rotation stage would propose —
`generate_actions` raises `TypeError` before any ROTATE can be emitted;
the rotation logic itself (`generateActionsFixed`), were it reachable,
emits the single pairing CCC → DDD, with no repeated `sell_symbol` or
`buy_symbol`. -/
theorem rotation_unreachable_type_error :
    generate_actions 100 (fun _ => some 0) portRot pricesRot
        (some []) (some ranksRot) none =
      .error (.typeError
        "check_all_exit_conditions() got an unexpected keyword argument fixed_threshold")
    ∧ (rotateSellsOf (generateActionsFixed 100 (fun _ => some 0) portRot
        pricesRot [] ranksRot)).Nodup
    ∧ (rotateBuysOf (generateActionsFixed 100 (fun _ => some 0) portRot
        pricesRot [] ranksRot)).Nodup
    ∧ rotateSellsOf (generateActionsFixed 100 (fun _ => some 0) portRot
        pricesRot [] ranksRot) = ["CCC"]
    ∧ rotateBuysOf (generateActionsFixed 100 (fun _ => some 0) portRot
        pricesRot [] ranksRot) = ["DDD"] := by
  refine ⟨rfl, ?_, ?_, ?_, ?_⟩
  · with_unfolding_all decide
  · with_unfolding_all decide
  · with_unfolding_all decide
  · with_unfolding_all decide

/-- C7 (code bug): at an input holding one core position 75 % under
water, `generate_actions` raises `TypeError` before any action — even
the core HOLD — is emitted; the classification logic itself
(`generateActionsFixed`), were it reachable, emits exactly the HOLD
with source `core_hold` for the core position. -/
theorem core_hold_unreachable_type_error :
    generate_actions 100 (fun _ => none) portCore [("VOO", 100)]
        (some []) (some []) none =
      .error (.typeError
        "check_all_exit_conditions() got an unexpected keyword argument fixed_threshold")
    ∧ generateActionsFixed 100 (fun _ => none) portCore [("VOO", 100)]
        [] []
        = [.hold "VOO" 5 (some 100) "core_hold" "auto"] := by
  constructor
  · rfl
  · with_unfolding_all decide

theorem mem_insertDescBy {α : Type} (key : α → Rat) (x : α) (l : List α)
    (a : α) : a ∈ insertDescBy key x l ↔ a = x ∨ a ∈ l := by
  induction l with
  | nil => simp [insertDescBy]
  | cons y ys ih =>
      rw [insertDescBy]
      by_cases h : key x < key y
      · rw [if_pos h]
        simp only [List.mem_cons, ih]
        tauto
      · rw [if_neg h]
        simp only [List.mem_cons]

theorem pairwise_insertDescBy {α : Type} (key : α → Rat) (x : α)
    (l : List α) (hl : l.Pairwise fun a b => key b ≤ key a) :
    (insertDescBy key x l).Pairwise fun a b => key b ≤ key a := by
  induction l with
  | nil => simp [insertDescBy]
  | cons y ys ih =>
      rcases List.pairwise_cons.mp hl with ⟨hy, hys⟩
      rw [insertDescBy]
      by_cases h : key x < key y
      · rw [if_pos h]
        refine List.pairwise_cons.mpr ⟨?_, ih hys⟩
        intro b hb
        rcases (mem_insertDescBy key x ys b).mp hb with rfl | hb
        · exact le_of_lt h
        · exact hy b hb
      · rw [if_neg h]
        push_neg at h
        refine List.pairwise_cons.mpr ⟨?_, hl⟩
        intro b hb
        rcases List.mem_cons.mp hb with rfl | hb
        · exact h
        · exact le_trans (hy b hb) h

theorem sortDescBy_pairwise {α : Type} (key : α → Rat) (l : List α) :
    (sortDescBy key l).Pairwise fun a b => key b ≤ key a := by
  induction l with
  | nil => simp [sortDescBy]
  | cons x xs ih => exact pairwise_insertDescBy key x _ ih

theorem insertDescBy_perm {α : Type} (key : α → Rat) (x : α) (l : List α) :
    List.Perm (insertDescBy key x l) (x :: l) := by
  induction l with
  | nil => rw [insertDescBy]
  | cons y ys ih =>
      rw [insertDescBy]
      by_cases h : key x < key y
      · rw [if_pos h]
        exact List.Perm.trans (List.Perm.cons y ih) (List.Perm.swap x y ys)
      · rw [if_neg h]

theorem sortDescBy_perm {α : Type} (key : α → Rat) (l : List α) :
    List.Perm (sortDescBy key l) l := by
  induction l with
  | nil => rw [sortDescBy]
  | cons x xs ih =>
      rw [sortDescBy]
      exact List.Perm.trans (insertDescBy_perm key x _) (List.Perm.cons x ih)

theorem filter_insertDescBy_of_eq {α : Type} (key : α → Rat) (x : α)
    (l : List α) (m : Rat) (hx : key x = m) :
    (insertDescBy key x l).filter (fun a => decide (key a = m))
      = x :: l.filter (fun a => decide (key a = m)) := by
  induction l with
  | nil => simp [insertDescBy, List.filter_cons, hx]
  | cons y ys ih =>
      rw [insertDescBy]
      by_cases h : key x < key y
      · rw [if_pos h]
        have hy : ¬ (key y = m) := by
          rw [← hx]
          exact ne_of_gt h
        simp only [List.filter_cons, hy, decide_eq_true_eq, if_false,
          decide_False]
        rw [ih]
        simp [hy]
      · rw [if_neg h]
        simp [List.filter_cons, hx]

theorem filter_insertDescBy_of_ne {α : Type} (key : α → Rat) (x : α)
    (l : List α) (m : Rat) (hx : ¬ (key x = m)) :
    (insertDescBy key x l).filter (fun a => decide (key a = m))
      = l.filter (fun a => decide (key a = m)) := by
  induction l with
  | nil => simp [insertDescBy, List.filter_cons, hx]
  | cons y ys ih =>
      rw [insertDescBy]
      by_cases h : key x < key y
      · rw [if_pos h]
        simp only [List.filter_cons, ih]
      · rw [if_neg h]
        simp [List.filter_cons, hx]

theorem sortDescBy_filter {α : Type} (key : α → Rat) (l : List α)
    (m : Rat) :
    (sortDescBy key l).filter (fun a => decide (key a = m))
      = l.filter (fun a => decide (key a = m)) := by
  induction l with
  | nil => rw [sortDescBy]
  | cons x xs ih =>
      rw [sortDescBy]
      by_cases hx : key x = m
      · rw [filter_insertDescBy_of_eq key x _ m hx, ih]
        simp [List.filter_cons, hx]
      · rw [filter_insertDescBy_of_ne key x _ m hx, ih]
        simp [List.filter_cons, hx]

theorem sortDescBy_eq_self {α : Type} (key : α → Rat) (l : List α)
    (hl : l.Pairwise fun a b => key b ≤ key a) : sortDescBy key l = l := by
  induction l with
  | nil => rw [sortDescBy]
  | cons x xs ih =>
      rcases List.pairwise_cons.mp hl with ⟨hx, hxs⟩
      rw [sortDescBy, ih hxs]
      cases xs with
      | nil => rw [insertDescBy]
      | cons y ys =>
          rw [insertDescBy,
            if_neg (not_lt.mpr (hx y (List.mem_cons_self y ys)))]

theorem attachRanks_map_pair (i : Int) (l : List (String × Rat)) :
    (attachRanks i l).map (fun r => (r.symbol, r.momentum)) = l := by
  induction l generalizing i with
  | nil => simp [attachRanks]
  | cons sm rest ih =>
      rw [attachRanks]
      simp [ih]

theorem attachRanks_mem_pair (i : Int) (l : List (String × Rat))
    (r : RankResult) (h : r ∈ attachRanks i l) :
    (r.symbol, r.momentum) ∈ l := by
  induction l generalizing i with
  | nil => simp [attachRanks] at h
  | cons sm rest ih =>
      rw [attachRanks] at h
      rcases List.mem_cons.mp h with rfl | h'
      · exact List.mem_cons_self _ _
      · exact List.mem_cons_of_mem _ (ih (i + 1) h')

theorem attachRanks_rank_ge (i : Int) (l : List (String × Rat))
    (r : RankResult) (h : r ∈ attachRanks i l) : i ≤ r.rank := by
  induction l generalizing i with
  | nil => simp [attachRanks] at h
  | cons sm rest ih =>
      rw [attachRanks] at h
      rcases List.mem_cons.mp h with rfl | h'
      · exact le_refl i
      · exact le_trans (by omega) (ih (i + 1) h')

theorem attachRanks_length (i : Int) (l : List (String × Rat)) :
    (attachRanks i l).length = l.length := by
  induction l generalizing i with
  | nil => rfl
  | cons sm rest ih =>
      rw [attachRanks]
      simp [ih]

theorem attachRanks_get_rank (l : List (String × Rat)) (i : Int) (j : Nat)
    (h : j < (attachRanks i l).length) :
    ((attachRanks i l).get ⟨j, h⟩).rank = i + (j : Int) := by
  induction l generalizing i j with
  | nil => simp [attachRanks] at h
  | cons sm rest ih =>
      cases j with
      | zero => simp [attachRanks]
      | succ k =>
          have h' : k < (attachRanks (i + 1) rest).length := by
            simpa [attachRanks] using h
          have hk := ih (i + 1) k h'
          simp only [attachRanks, List.get_cons_succ]
          rw [hk]
          push_cast
          ring

theorem attachRanks_rank_lt (l : List (String × Rat))
    (hl : l.Pairwise fun a b => b.2 ≤ a.2) (a b : RankResult) (i : Int)
    (ha : a ∈ attachRanks i l) (hb : b ∈ attachRanks i l)
    (hab : b.momentum < a.momentum) : a.rank < b.rank := by
  induction l generalizing i with
  | nil => simp [attachRanks] at ha
  | cons sm rest ih =>
      rcases List.pairwise_cons.mp hl with ⟨hsm, hrest⟩
      rw [attachRanks] at ha hb
      rcases List.mem_cons.mp ha with rfl | ha'
      · rcases List.mem_cons.mp hb with rfl | hb'
        · exact absurd hab (lt_irrefl _)
        · have hge := attachRanks_rank_ge (i + 1) rest b hb'
          show i < b.rank
          omega
      · rcases List.mem_cons.mp hb with rfl | hb'
        · have hpair := attachRanks_mem_pair (i + 1) rest a ha'
          have hle : a.momentum ≤ sm.2 := hsm (a.symbol, a.momentum) hpair
          exact absurd hab (not_lt.mpr hle)
        · exact ih hrest (i + 1) ha' hb'

theorem attachRanks_filter_map (i : Int) (l : List (String × Rat))
    (m : Rat) :
    ((attachRanks i l).filter (fun r => decide (r.momentum = m))).map
        RankResult.symbol
      = (l.filter (fun sm => decide (sm.2 = m))).map Prod.fst := by
  induction l generalizing i with
  | nil => simp [attachRanks]
  | cons sm rest ih =>
      rw [attachRanks]
      by_cases h : sm.2 = m
      · simp [List.filter_cons, h, ih]
      · simp [List.filter_cons, h, ih]

/-- C8: for every score map — ties, all-tied and singleton maps
included — the ranking step of `rank_by_momentum` is a total order with
1-indexed ranks: any two output entries with strictly higher momentum on
one side give it the strictly smaller rank number; ranking is stable —
symbols of equal momentum keep their relative input order, stated as:
for every momentum value the filtered symbol sequence of the output
equals that of the input; and re-running the ranking on the
symbol-momentum pairs it produced yields the identical ranking
(idempotence; the function is deterministic on its scores, so equal
inputs trivially give equal ranks). -/
theorem rank_by_momentum_total_stable_idempotent
    (scores : List (String × Rat)) :
    (∀ a ∈ rank_by_momentum scores none,
      ∀ b ∈ rank_by_momentum scores none,
        b.momentum < a.momentum → a.rank < b.rank)
    ∧ (∀ (j : Nat) (hj : j < (rank_by_momentum scores none).length),
        ((rank_by_momentum scores none).get ⟨j, hj⟩).rank = 1 + (j : Int))
    ∧ (∀ m : Rat,
        ((rank_by_momentum scores none).filter
            (fun r => decide (r.momentum = m))).map RankResult.symbol
          = (scores.filter (fun sm => decide (sm.2 = m))).map Prod.fst)
    ∧ rank_by_momentum
        ((rank_by_momentum scores none).map (fun r => (r.symbol, r.momentum)))
        none
      = rank_by_momentum scores none := by
  have hdef : rank_by_momentum scores none
      = attachRanks 1 (sortDescBy (fun sm => sm.2) scores) := rfl
  rw [hdef]
  refine ⟨?_, ?_, ?_, ?_⟩
  · intro a ha b hb hab
    exact attachRanks_rank_lt _ (sortDescBy_pairwise _ scores) a b 1 ha hb hab
  · intro j hj
    exact attachRanks_get_rank _ 1 j hj
  · intro m
    rw [attachRanks_filter_map, sortDescBy_filter]
  · rw [attachRanks_map_pair]
    have h2 : sortDescBy (fun sm : String × Rat => sm.2)
        (sortDescBy (fun sm : String × Rat => sm.2) scores)
        = sortDescBy (fun sm : String × Rat => sm.2) scores :=
      sortDescBy_eq_self _ _ (sortDescBy_pairwise _ scores)
    calc rank_by_momentum (sortDescBy (fun sm : String × Rat => sm.2) scores)
          none
        = attachRanks 1 (sortDescBy (fun sm : String × Rat => sm.2)
            (sortDescBy (fun sm : String × Rat => sm.2) scores)) := rfl
      _ = attachRanks 1 (sortDescBy (fun sm : String × Rat => sm.2) scores) :=
          by rw [h2]

/-- Witness for C8 at `scoresW`, a score map with a tie (A and C both
at momentum 5): the tied symbols keep their input order with ranks 2
and 3 behind B at rank 1, and the full unconditional ordering,
stability and idempotence conclusion is instantiated by the theorem. -/
theorem rank_by_momentum_total_stable_idempotent_witness :
    rank_by_momentum scoresW none
      = [⟨"B", 7, 1⟩, ⟨"A", 5, 2⟩, ⟨"C", 5, 3⟩]
    ∧ ((∀ a ∈ rank_by_momentum scoresW none,
          ∀ b ∈ rank_by_momentum scoresW none,
            b.momentum < a.momentum → a.rank < b.rank)
      ∧ (∀ (j : Nat) (hj : j < (rank_by_momentum scoresW none).length),
          ((rank_by_momentum scoresW none).get ⟨j, hj⟩).rank = 1 + (j : Int))
      ∧ (∀ m : Rat,
          ((rank_by_momentum scoresW none).filter
              (fun r => decide (r.momentum = m))).map RankResult.symbol
            = (scoresW.filter (fun sm => decide (sm.2 = m))).map Prod.fst)
      ∧ rank_by_momentum
          ((rank_by_momentum scoresW none).map
            (fun r => (r.symbol, r.momentum))) none
        = rank_by_momentum scoresW none) :=
  ⟨by with_unfolding_all decide,
   rank_by_momentum_total_stable_idempotent scoresW⟩

theorem addSpend_append (l1 l2 : List PAction) :
    addSpend (l1 ++ l2) = addSpend l1 + addSpend l2 := by
  simp [addSpend]

theorem exitSymbolsOf_append (l1 l2 : List PAction) :
    exitSymbolsOf (l1 ++ l2) = exitSymbolsOf l1 ++ exitSymbolsOf l2 := by
  simp [exitSymbolsOf]

theorem rotateSellsOf_append (l1 l2 : List PAction) :
    rotateSellsOf (l1 ++ l2) = rotateSellsOf l1 ++ rotateSellsOf l2 := by
  simp [rotateSellsOf]

theorem rotateBuysOf_append (l1 l2 : List PAction) :
    rotateBuysOf (l1 ++ l2) = rotateBuysOf l1 ++ rotateBuysOf l2 := by
  simp [rotateBuysOf]

theorem addSpend_of_all_zero (l : List PAction)
    (h : ∀ a ∈ l, addSpendOne a = 0) : addSpend l = 0 := by
  rw [addSpend]
  apply List.sum_eq_zero
  intro x hx
  rcases List.mem_map.mp hx with ⟨a, ha, rfl⟩
  exact h a ha

theorem filterMap_none_of_all (f : PAction → Option String)
    (l : List PAction) (h : ∀ a ∈ l, f a = none) : l.filterMap f = [] :=
  List.filterMap_eq_nil.mpr h

theorem classifyOne_shape (prices : List (String × Rat))
    (sigs : List (String × String)) (sp : String × Position) :
    addSpendOne (classifyOne prices sigs sp) = 0
    ∧ rotateSellOne (classifyOne prices sigs sp) = none
    ∧ rotateBuyOne (classifyOne prices sigs sp) = none := by
  rw [classifyOne]
  by_cases hc : sp.2.core
  · rw [if_pos hc]
    exact ⟨rfl, rfl, rfl⟩
  · rw [if_neg hc]
    cases alistLookup sp.1 sigs <;> exact ⟨rfl, rfl, rfl⟩

theorem mkAddAction_shape (prices : List (String × Rat)) (psize : Rat)
    (m : MEntry) :
    exitSymbolOne (mkAddAction prices psize m) = none
    ∧ rotateSellOne (mkAddAction prices psize m) = none
    ∧ rotateBuyOne (mkAddAction prices psize m) = none :=
  ⟨rfl, rfl, rfl⟩

theorem rotateLoop_shape (prices : List (String × Rat))
    (strong : List MEntry) :
    ∀ (ts : List RotEntry) (used : List String) (a : PAction),
      a ∈ rotateLoop prices strong ts used →
      addSpendOne a = 0 ∧ exitSymbolOne a = none := by
  intro ts
  induction ts with
  | nil =>
      intro used a h
      simp [rotateLoop] at h
  | cons e rest ih =>
      intro used a h
      rw [rotateLoop] at h
      by_cases hp : alistGetD prices e.sym 0 ≤ 0
      · rw [if_pos hp] at h
        exact ih used a h
      · rw [if_neg hp] at h
        split at h
        · exact ih used a h
        · rcases List.mem_cons.mp h with rfl | h'
          · exact ⟨rfl, rfl⟩
          · exact ih _ a h'

theorem addSpend_classifyPositions (ps : List (String × Position))
    (prices : List (String × Rat)) (sigs : List (String × String)) :
    addSpend (classifyPositions ps prices sigs) = 0 := by
  apply addSpend_of_all_zero
  intro a ha
  rw [classifyPositions] at ha
  rcases List.mem_map.mp ha with ⟨sp, _, rfl⟩
  exact (classifyOne_shape prices sigs sp).1

theorem rotateSellsOf_classifyPositions (ps : List (String × Position))
    (prices : List (String × Rat)) (sigs : List (String × String)) :
    rotateSellsOf (classifyPositions ps prices sigs) = [] := by
  apply filterMap_none_of_all
  intro a ha
  rw [classifyPositions] at ha
  rcases List.mem_map.mp ha with ⟨sp, _, rfl⟩
  exact (classifyOne_shape prices sigs sp).2.1

theorem rotateBuysOf_classifyPositions (ps : List (String × Position))
    (prices : List (String × Rat)) (sigs : List (String × String)) :
    rotateBuysOf (classifyPositions ps prices sigs) = [] := by
  apply filterMap_none_of_all
  intro a ha
  rw [classifyPositions] at ha
  rcases List.mem_map.mp ha with ⟨sp, _, rfl⟩
  exact (classifyOne_shape prices sigs sp).2.2

theorem addStage_mem_shape (pf : Portfolio) (prices : List (String × Rat))
    (ranks : List MEntry) (acts : List PAction) (a : PAction)
    (h : a ∈ addStage pf prices ranks acts) :
    ∃ psize m, a = mkAddAction prices psize m := by
  rw [addStage] at h
  split at h
  · rcases List.mem_map.mp h with ⟨m, _, rfl⟩
    exact ⟨_, m, rfl⟩
  · simp at h

theorem exitSymbolsOf_addStage (pf : Portfolio)
    (prices : List (String × Rat)) (ranks : List MEntry)
    (acts : List PAction) :
    exitSymbolsOf (addStage pf prices ranks acts) = [] := by
  apply filterMap_none_of_all
  intro a ha
  rcases addStage_mem_shape pf prices ranks acts a ha with ⟨psize, m, rfl⟩
  exact (mkAddAction_shape prices psize m).1

theorem rotateSellsOf_addStage (pf : Portfolio)
    (prices : List (String × Rat)) (ranks : List MEntry)
    (acts : List PAction) :
    rotateSellsOf (addStage pf prices ranks acts) = [] := by
  apply filterMap_none_of_all
  intro a ha
  rcases addStage_mem_shape pf prices ranks acts a ha with ⟨psize, m, rfl⟩
  exact (mkAddAction_shape prices psize m).2.1

theorem rotateBuysOf_addStage (pf : Portfolio)
    (prices : List (String × Rat)) (ranks : List MEntry)
    (acts : List PAction) :
    rotateBuysOf (addStage pf prices ranks acts) = [] := by
  apply filterMap_none_of_all
  intro a ha
  rcases addStage_mem_shape pf prices ranks acts a ha with ⟨psize, m, rfl⟩
  exact (mkAddAction_shape prices psize m).2.2

theorem addSpend_rotateLoop (prices : List (String × Rat))
    (strong : List MEntry) (ts : List RotEntry) (used : List String) :
    addSpend (rotateLoop prices strong ts used) = 0 :=
  addSpend_of_all_zero _ (fun a ha => (rotateLoop_shape prices strong ts used a ha).1)

theorem exitSymbolsOf_rotateLoop (prices : List (String × Rat))
    (strong : List MEntry) (ts : List RotEntry) (used : List String) :
    exitSymbolsOf (rotateLoop prices strong ts used) = [] :=
  filterMap_none_of_all _ _
    (fun a ha => (rotateLoop_shape prices strong ts used a ha).2)

theorem insertAscBy_perm {α : Type} (key : α → Rat) (x : α) (l : List α) :
    List.Perm (insertAscBy key x l) (x :: l) := by
  induction l with
  | nil => rw [insertAscBy]
  | cons y ys ih =>
      rw [insertAscBy]
      by_cases h : key y < key x
      · rw [if_pos h]
        exact List.Perm.trans (List.Perm.cons y ih) (List.Perm.swap x y ys)
      · rw [if_neg h]

theorem sortAscBy_perm {α : Type} (key : α → Rat) (l : List α) :
    List.Perm (sortAscBy key l) l := by
  induction l with
  | nil => rw [sortAscBy]
  | cons x xs ih =>
      rw [sortAscBy]
      exact List.Perm.trans (insertAscBy_perm key x _) (List.Perm.cons x ih)

theorem addSpendOne_mkAddAction_le (prices : List (String × Rat))
    (psize : Rat) (m : MEntry) (h : 0 ≤ psize) :
    addSpendOne (mkAddAction prices psize m) ≤ psize := by
  show ((if 0 < alistGetD prices m.symbol 0 ∧ 0 < psize
      then ⌊psize / alistGetD prices m.symbol 0⌋ else 0 : Int) : Rat)
      * alistGetD prices m.symbol 0 ≤ psize
  by_cases hc : 0 < alistGetD prices m.symbol 0 ∧ 0 < psize
  · rw [if_pos hc]
    have h1 : (⌊psize / alistGetD prices m.symbol 0⌋ : Rat)
        ≤ psize / alistGetD prices m.symbol 0 := Int.floor_le _
    have h2 := mul_le_mul_of_nonneg_right h1 (le_of_lt hc.1)
    rwa [div_mul_cancel₀ psize (ne_of_gt hc.1)] at h2
  · rw [if_neg hc]
    simpa using h

theorem sum_map_le {α : Type} (l : List α) (f : α → Rat) (S : Rat)
    (h : ∀ x ∈ l, f x ≤ S) (hS : 0 ≤ S) :
    (l.map f).sum ≤ (l.length : Rat) * S := by
  induction l with
  | nil => simp
  | cons x xs ih =>
      simp only [List.map_cons, List.sum_cons, List.length_cons]
      have hx := h x (List.mem_cons_self x xs)
      have hxs := ih (fun y hy => h y (List.mem_cons_of_mem _ hy))
      have hcast : ((xs.length + 1 : Nat) : Rat) = (xs.length : Rat) + 1 := by
        push_cast
        ring
      rw [hcast]
      calc f x + (xs.map f).sum ≤ S + (xs.length : Rat) * S :=
            add_le_add hx hxs
        _ = ((xs.length : Rat) + 1) * S := by ring

theorem addSpend_take_map_le (prices : List (String × Rat))
    (cands : List MEntry) (proj : Rat) (n : Int) (h : 0 ≤ proj) :
    addSpend ((cands.take n.toNat).map
        (mkAddAction prices (if 0 < n then proj / (n : Rat) else 0)))
      ≤ proj := by
  by_cases hpos : 0 < n
  · rw [if_pos hpos]
    have hn0 : ((n : Rat)) ≠ 0 := by
      exact_mod_cast ne_of_gt hpos
    have hps : 0 ≤ proj / (n : Rat) := by
      apply div_nonneg h
      exact_mod_cast le_of_lt hpos
    rw [addSpend, List.map_map]
    have hb := sum_map_le (cands.take n.toNat)
      (addSpendOne ∘ mkAddAction prices (proj / (n : Rat)))
      (proj / (n : Rat))
      (fun m _ => addSpendOne_mkAddAction_le prices _ m hps) hps
    apply le_trans hb
    have hlen : (((cands.take n.toNat).length : Nat) : Rat) ≤ (n : Rat) := by
      have h1 : (cands.take n.toNat).length ≤ n.toNat :=
        List.length_take_le _ _
      have h2 : ((n.toNat : Nat) : Rat) = (n : Rat) := by
        rw [← Int.toNat_of_nonneg (le_of_lt hpos)]
        push_cast
        rw [Int.toNat_of_nonneg (le_of_lt hpos)]
      calc (((cands.take n.toNat).length : Nat) : Rat)
          ≤ ((n.toNat : Nat) : Rat) := by exact_mod_cast h1
        _ = (n : Rat) := h2
    calc ((cands.take n.toNat).length : Rat) * (proj / (n : Rat))
        ≤ (n : Rat) * (proj / (n : Rat)) :=
          mul_le_mul_of_nonneg_right hlen hps
      _ = proj := by
          field_simp
  · have hz : n.toNat = 0 := Int.toNat_of_nonpos (not_lt.mp hpos)
    rw [hz]
    simpa [addSpend] using h

theorem addSpend_addStage_le (pf : Portfolio)
    (prices : List (String × Rat)) (ranks : List MEntry)
    (acts : List PAction) (h : 0 ≤ projectedCash pf prices acts) :
    addSpend (addStage pf prices ranks acts)
      ≤ projectedCash pf prices acts := by
  simp only [addStage]
  split
  · exact addSpend_take_map_le prices _ _ _ h
  · simpa [addSpend] using h

theorem addSpend_classifiedOf (pf : Portfolio)
    (prices : List (String × Rat)) (ma : List (String × Rat)) :
    addSpend (classifiedOf pf prices ma) = 0 := by
  rw [classifiedOf]
  exact addSpend_classifyPositions _ _ _

/-- The position-sizing bound of the emission logic: across one run of
`generateActionsFixed` the ADD actions never spend more than the
projected cash (current cash plus 85 % of the EXIT proceeds), floor
rounding included, provided the projected cash is not negative.  This is
the property C5 claims of `generate_actions`; `generate_actions` itself
dies with `TypeError` before reaching this logic. -/
theorem generateActionsFixed_add_budget (today : Int)
    (parseDate : String → Option Int) (pf : Portfolio)
    (prices : List (String × Rat)) (ma : List (String × Rat))
    (ranks : List MEntry)
    (h : 0 ≤ projectedCash pf prices (classifiedOf pf prices ma)) :
    addSpend (generateActionsFixed today parseDate pf prices ma ranks)
      ≤ projectedCash pf prices (classifiedOf pf prices ma) := by
  simp only [generateActionsFixed]
  rw [addSpend_append, addSpend_append]
  rw [addSpend_classifiedOf, addSpend_rotateLoop]
  have hb := addSpend_addStage_le pf prices ranks (classifiedOf pf prices ma) h
  linarith

theorem rotateSellsOf_classifiedOf (pf : Portfolio)
    (prices : List (String × Rat)) (ma : List (String × Rat)) :
    rotateSellsOf (classifiedOf pf prices ma) = [] := by
  rw [classifiedOf]
  exact rotateSellsOf_classifyPositions _ _ _

theorem rotateBuysOf_classifiedOf (pf : Portfolio)
    (prices : List (String × Rat)) (ma : List (String × Rat)) :
    rotateBuysOf (classifiedOf pf prices ma) = [] := by
  rw [classifiedOf]
  exact rotateBuysOf_classifyPositions _ _ _

theorem rotateLoop_sells_sublist (prices : List (String × Rat))
    (strong : List MEntry) :
    ∀ (ts : List RotEntry) (used : List String),
      (rotateSellsOf (rotateLoop prices strong ts used)).Sublist
        (ts.map RotEntry.sym) := by
  intro ts
  induction ts with
  | nil =>
      intro used
      simp [rotateLoop, rotateSellsOf]
  | cons e rest ih =>
      intro used
      rw [rotateLoop]
      by_cases hp : alistGetD prices e.sym 0 ≤ 0
      · rw [if_pos hp]
        exact List.Sublist.cons _ (ih used)
      · rw [if_neg hp]
        split
        · exact List.Sublist.cons _ (ih used)
        · rename_i c hfind
          simp only [rotateSellsOf, List.filterMap_cons, rotateSellOne,
            List.map_cons]
          exact List.Sublist.cons₂ _ (ih (c.symbol :: used))

theorem rotateLoop_buys_props (prices : List (String × Rat))
    (strong : List MEntry) :
    ∀ (ts : List RotEntry) (used : List String),
      (∀ b ∈ rotateBuysOf (rotateLoop prices strong ts used), b ∉ used)
      ∧ (rotateBuysOf (rotateLoop prices strong ts used)).Nodup := by
  intro ts
  induction ts with
  | nil =>
      intro used
      constructor
      · intro b hb
        simp [rotateLoop, rotateBuysOf] at hb
      · simp [rotateLoop, rotateBuysOf]
  | cons e rest ih =>
      intro used
      rw [rotateLoop]
      by_cases hp : alistGetD prices e.sym 0 ≤ 0
      · rw [if_pos hp]
        exact ih used
      · rw [if_neg hp]
        split
        · exact ih used
        · rename_i c hfind
          have hpred := List.find?_some hfind
          have hcnot : c.symbol ∉ used := by
            simp only [Bool.and_eq_true] at hpred
            have h1 := hpred.1.1
            simpa using h1
          obtain ⟨hsub, hnd⟩ := ih (c.symbol :: used)
          constructor
          · intro b hb
            simp only [rotateBuysOf, List.filterMap_cons, rotateBuyOne] at hb
            rcases List.mem_cons.mp hb with rfl | hb'
            · exact hcnot
            · intro hbu
              exact hsub b hb' (List.mem_cons_of_mem _ hbu)
          · simp only [rotateBuysOf, List.filterMap_cons, rotateBuyOne]
            refine List.nodup_cons.mpr ⟨?_, hnd⟩
            intro hmem
            exact hsub c.symbol hmem (List.mem_cons_self _ _)

theorem rotatablePositions_map_sym (today : Int)
    (parseDate : String → Option Int) (ps : List (String × Position))
    (ranks : List MEntry) (exitSyms : List String) :
    (rotatablePositions today parseDate ps ranks exitSyms).map RotEntry.sym
      = (ps.filter fun sp =>
          !sp.2.core && !sp.2.favorite && !(exitSyms.contains sp.1)
            && ((momentumMapGet ranks sp.1).map MEntry.momentum).isSome
            && decide (30 ≤ getHoldingDays today parseDate sp.2)).map
          Prod.fst := by
  rw [rotatablePositions, List.map_map]
  apply List.map_congr_left
  intro sp _
  rfl

theorem rotatablePositions_syms_nodup (today : Int)
    (parseDate : String → Option Int) (ps : List (String × Position))
    (ranks : List MEntry) (exitSyms : List String)
    (hnd : (ps.map Prod.fst).Nodup) :
    ((rotatablePositions today parseDate ps ranks exitSyms).map
      RotEntry.sym).Nodup := by
  rw [rotatablePositions_map_sym]
  exact List.Nodup.sublist (List.Sublist.map _ (List.filter_sublist _)) hnd

theorem rotatable_sym_noncore (today : Int)
    (parseDate : String → Option Int) (ps : List (String × Position))
    (ranks : List MEntry) (exitSyms : List String) (s : String)
    (h : s ∈ (rotatablePositions today parseDate ps ranks exitSyms).map
      RotEntry.sym) :
    ∃ pos, (s, pos) ∈ ps ∧ pos.core = false := by
  rw [rotatablePositions_map_sym] at h
  rcases List.mem_map.mp h with ⟨sp, hsp, rfl⟩
  have hf := List.mem_filter.mp hsp
  have hq := hf.2
  simp only [Bool.and_eq_true, Bool.not_eq_true'] at hq
  refine ⟨sp.2, ?_, hq.1.1.1.1⟩
  rw [Prod.mk.eta]
  exact hf.1

/-- Rotation uniqueness of the emission logic: within one run of
`generateActionsFixed` no two ROTATE actions share a `sell_symbol` and
no two share a `buy_symbol` — each eligible holding and each candidate
is paired at most once.  This is the property C6 claims of
`generate_actions`; `generate_actions` itself dies with `TypeError`
before reaching this logic. -/
theorem generateActionsFixed_rotate_unique (today : Int)
    (parseDate : String → Option Int) (pf : Portfolio)
    (prices : List (String × Rat)) (ma : List (String × Rat))
    (ranks : List MEntry)
    (hnd : (pf.positions.map Prod.fst).Nodup) :
    (rotateSellsOf
        (generateActionsFixed today parseDate pf prices ma ranks)).Nodup
    ∧ (rotateBuysOf
        (generateActionsFixed today parseDate pf prices ma ranks)).Nodup := by
  simp only [generateActionsFixed]
  rw [rotateSellsOf_append, rotateSellsOf_append, rotateBuysOf_append,
    rotateBuysOf_append, rotateSellsOf_classifiedOf, rotateBuysOf_classifiedOf,
    rotateSellsOf_addStage, rotateBuysOf_addStage]
  simp only [List.nil_append]
  constructor
  · apply List.Nodup.sublist (rotateLoop_sells_sublist prices _ _ [])
    apply List.Perm.nodup_iff
      ((sortAscBy_perm (fun e => e.momentum.getD 999) _).map RotEntry.sym)
      |>.mpr
    exact rotatablePositions_syms_nodup today parseDate pf.positions ranks _
      hnd
  · exact (rotateLoop_buys_props prices _ _ []).2

theorem alist_mem_value_unique {α : Type} (l : List (String × α))
    (hnd : (l.map Prod.fst).Nodup) (k : String) (v1 v2 : α)
    (h1 : (k, v1) ∈ l) (h2 : (k, v2) ∈ l) : v1 = v2 := by
  induction l with
  | nil => simp at h1
  | cons hd tl ih =>
      simp only [List.map_cons, List.nodup_cons] at hnd
      rcases List.mem_cons.mp h1 with heq1 | h1'
      · rcases List.mem_cons.mp h2 with heq2 | h2'
        · have h12 := heq1.trans heq2.symm
          exact ((Prod.mk.injEq _ _ _ _).mp h12).2
        · exfalso
          apply hnd.1
          have hk : hd.1 = k := by rw [← heq1]
          rw [hk]
          exact List.mem_map_of_mem Prod.fst h2'
      · rcases List.mem_cons.mp h2 with heq2 | h2'
        · exfalso
          apply hnd.1
          have hk : hd.1 = k := by rw [← heq2]
          rw [hk]
          exact List.mem_map_of_mem Prod.fst h1'
        · exact ih hnd.2 h1' h2'

theorem exitSymbolsOf_classifyPositions_mem (ps : List (String × Position))
    (prices : List (String × Rat)) (sigs : List (String × String))
    (s : String) (h : s ∈ exitSymbolsOf (classifyPositions ps prices sigs)) :
    ∃ pos, (s, pos) ∈ ps ∧ pos.core = false := by
  induction ps with
  | nil => simp [classifyPositions, exitSymbolsOf] at h
  | cons sp rest ih =>
      rw [classifyPositions, List.map_cons] at h
      rw [exitSymbolsOf, List.filterMap_cons] at h
      by_cases hc : sp.2.core
      · have hone : exitSymbolOne (classifyOne prices sigs sp) = none := by
          rw [classifyOne, if_pos hc]
          rfl
        simp only [hone] at h
        rcases ih h with ⟨pos, hm, hcf⟩
        exact ⟨pos, List.mem_cons_of_mem _ hm, hcf⟩
      · cases hl : alistLookup sp.1 sigs with
        | none =>
            have hone : exitSymbolOne (classifyOne prices sigs sp) = none := by
              rw [classifyOne, if_neg hc, hl]
              rfl
            simp only [hone] at h
            rcases ih h with ⟨pos, hm, hcf⟩
            exact ⟨pos, List.mem_cons_of_mem _ hm, hcf⟩
        | some r =>
            have hone : exitSymbolOne (classifyOne prices sigs sp)
                = some sp.1 := by
              rw [classifyOne, if_neg hc, hl]
              rfl
            simp only [hone] at h
            rcases List.mem_cons.mp h with rfl | h'
            · refine ⟨sp.2, ?_, Bool.eq_false_iff.mpr hc⟩
              rw [Prod.mk.eta]
              exact List.mem_cons_self _ _
            · rcases ih h' with ⟨pos, hm, hcf⟩
              exact ⟨pos, List.mem_cons_of_mem _ hm, hcf⟩

/-- Core protection of the emission logic: a core position always
receives the HOLD with source `core_hold`, and its symbol never appears
as an EXIT or as a ROTATE sell, whatever the prices, momentum data and
thresholds of the run.  This is the property C7 claims of
`generate_actions`; `generate_actions` itself dies with `TypeError`
before emitting anything. -/
theorem generateActionsFixed_core_hold (today : Int)
    (parseDate : String → Option Int) (pf : Portfolio)
    (prices : List (String × Rat)) (ma : List (String × Rat))
    (ranks : List MEntry) (sym : String) (pos : Position)
    (hnd : (pf.positions.map Prod.fst).Nodup)
    (hmem : (sym, pos) ∈ pf.positions) (hcore : pos.core = true) :
    PAction.hold sym pos.shares (alistLookup sym prices) "core_hold" "auto"
      ∈ generateActionsFixed today parseDate pf prices ma ranks
    ∧ sym ∉ exitSymbolsOf
        (generateActionsFixed today parseDate pf prices ma ranks)
    ∧ sym ∉ rotateSellsOf
        (generateActionsFixed today parseDate pf prices ma ranks) := by
  refine ⟨?_, ?_, ?_⟩
  · simp only [generateActionsFixed]
    apply List.mem_append_left
    apply List.mem_append_left
    rw [classifiedOf, classifyPositions]
    have hone : classifyOne prices
        (check_all_exit_conditions pf.positions prices ma
          (-(15/100)) (-(35/100)) (-(5/100))) (sym, pos)
        = PAction.hold sym pos.shares (alistLookup sym prices)
            "core_hold" "auto" := by
      rw [classifyOne, if_pos hcore]
    rw [← hone]
    exact List.mem_map_of_mem _ hmem
  · intro hin
    simp only [generateActionsFixed] at hin
    rw [exitSymbolsOf_append, exitSymbolsOf_append, exitSymbolsOf_addStage,
      exitSymbolsOf_rotateLoop, List.append_nil, List.append_nil] at hin
    rw [classifiedOf] at hin
    obtain ⟨pos', hm', hc'⟩ :=
      exitSymbolsOf_classifyPositions_mem _ _ _ _ hin
    have heq := alist_mem_value_unique pf.positions hnd sym pos pos' hmem hm'
    rw [← heq, hcore] at hc'
    exact Bool.noConfusion hc'
  · intro hin
    simp only [generateActionsFixed] at hin
    rw [rotateSellsOf_append, rotateSellsOf_append,
      rotateSellsOf_classifiedOf, rotateSellsOf_addStage,
      List.nil_append, List.nil_append] at hin
    have hsubset := (rotateLoop_sells_sublist prices _ _ []).subset hin
    have hmem2 := ((sortAscBy_perm (fun e => e.momentum.getD 999) _).map
      RotEntry.sym).mem_iff.mp hsubset
    obtain ⟨pos', hm', hc'⟩ :=
      rotatable_sym_noncore today parseDate pf.positions ranks _ sym hmem2
    have heq := alist_mem_value_unique pf.positions hnd sym pos pos' hmem hm'
    rw [← heq, hcore] at hc'
    exact Bool.noConfusion hc'
